import Mathlib

/-!
Shallow embedding of the download job orchestration engine
(worker loop, Redis status store helpers, retry logic and dead-letter
handler from the repository's design document).

Statuses are the literal strings used by the code ("queued",
"processing", "completed", "failed", "cancelled").  Timestamps
(`new Date().toISOString()`) are modelled as natural numbers passed
explicitly to each operation.  `redis.setex(key, 86400, v)` stores the
value together with the absolute expiry time `now + 86400`; a key that
is absent models both a never-created and an expired-and-evicted entry.
A JavaScript runtime error (dereferencing the result of parsing a
missing record) is modelled by returning `none`: the exception is
thrown before any write happens, so no store is produced.
JavaScript number arithmetic on the small integers involved is
modelled exactly over `Nat`; `Math.round` is half-up rounding.
-/

namespace Downloads

/-- `progress` object stored on a job record. -/
structure Progress where
  completed : Nat
  total : Nat
  percentage : Nat
deriving DecidableEq, Repr

/-- The `Job` record of the design document's Redis schema. -/
structure JobRec where
  job_id : String
  status : String
  file_ids : List Nat
  created_at : Nat
  updated_at : Nat
  completed_at : Option Nat
  progress : Progress
  bundle_url : Option String
  error : Option String
deriving DecidableEq, Repr

/-- The `FileStatus` record written by `updateFileStatus`.  `none`
models a field that is absent from the stored JSON (the code writes a
fresh object literal, so fields not mentioned there are absent). -/
structure FileRec where
  file_id : Nat
  job_id : String
  status : String
  download_url : Option String
  error : Option String
  updated_at : Nat
  started_at : Option Nat
  completed_at : Option Nat
deriving DecidableEq, Repr

/-- The Redis store: job records keyed by job id (`job:{jobId}`) and
file records keyed by job id and file id (`file:{jobId}:{fileId}`).
Each entry carries the value together with its absolute expiry time,
as set by `setex`. -/
structure Store where
  jobs : String → Option (JobRec × Nat)
  files : String × Nat → Option (FileRec × Nat)

/-- The store with no records. -/
def emptyStore : Store := { jobs := fun _ => none, files := fun _ => none }

/-- `Math.round(num/den)` for nonnegative arguments: half-up rounding,
`floor(num/den + 1/2) = (2*num + den) / (2*den)` in integer division. -/
def mathRound (num den : Nat) : Nat := (2 * num + den) / (2 * den)

/-- `round(100*completed/total)` as written in the specification text
(half-up rounding of the exact rational `num/den`). -/
def specRound (num den : Nat) : Nat := (2 * num + den) / (2 * den)

/-- `updateJobStatus(jobId, status, bundleUrl?)`: parses the stored job
record (a missing record gives `null` and the field assignment throws,
modelled as `none`), sets `status` and `updated_at`, and when the new
status is `completed` also sets `completed_at` and `bundle_url`; then
`setex`es the record back with a 86400 s TTL. -/
def updateJobStatus (s : Store) (jobId status : String) (bundleUrl : Option String)
    (now : Nat) : Option Store :=
  match s.jobs jobId with
  | none => none
  | some (jobData, _) =>
    let j1 := { jobData with status := status, updated_at := now }
    let j2 := if status = "completed" then
        { j1 with completed_at := some now, bundle_url := bundleUrl }
      else j1
    some { s with jobs := fun k => if k = jobId then some (j2, now + 86400) else s.jobs k }

/-- `updateFileStatus(jobId, fileId, status, downloadUrl?, error?)`:
builds a fresh object containing only the listed fields (plus
`started_at` when the status is `processing` and `completed_at` when it
is `completed`) and `setex`es it under the file key with a 86400 s TTL.
The previous record, if any, is not read. -/
def updateFileStatus (s : Store) (jobId : String) (fileId : Nat) (status : String)
    (downloadUrl : Option String) (error : Option String) (now : Nat) : Store :=
  let data : FileRec :=
    { file_id := fileId
      job_id := jobId
      status := status
      download_url := downloadUrl
      error := error
      updated_at := now
      started_at := if status = "processing" then some now else none
      completed_at := if status = "completed" then some now else none }
  { s with files := fun k => if k = (jobId, fileId) then some (data, now + 86400) else s.files k }

/-- The loop body of `updateJobProgress`: counts the job's files whose
stored record has status `completed`, in `file_ids` order; a missing
file record makes `JSON.parse` return `null` and the `.status` access
throw (modelled as `none`). -/
def countCompleted (s : Store) (jobId : String) : List Nat → Option Nat
  | [] => some 0
  | f :: rest =>
    match s.files (jobId, f) with
    | none => none
    | some (file, _) =>
      match countCompleted s jobId rest with
      | none => none
      | some c => some (if file.status = "completed" then c + 1 else c)

/-- `updateJobProgress(jobId)`: re-reads the job record, recomputes
`progress` as `{completed, total = file_ids.length,
percentage = Math.round((completed / file_ids.length) * 100)}` and
`setex`es the record back with a 86400 s TTL.  Status, `completed_at`,
`error` and `updated_at` are not touched. -/
def updateJobProgress (s : Store) (jobId : String) (now : Nat) : Option Store :=
  match s.jobs jobId with
  | none => none
  | some (job, _) =>
    match countCompleted s jobId job.file_ids with
    | none => none
    | some completed =>
      let job2 := { job with progress :=
        { completed := completed
          total := job.file_ids.length
          percentage := mathRound (completed * 100) job.file_ids.length } }
      some { s with jobs := fun k =>
        if k = jobId then some (job2, now + 86400) else s.jobs k }

/-- Observable store operations performed by the worker, in order:
`jobStatus st` is a call to `updateJobStatus(job_id, st, ...)`,
`fileStatus f st` a call to `updateFileStatus(job_id, f, st, ...)`, and
`progress` a call to `updateJobProgress(job_id)` (the Progress
Aggregator). -/
inductive Ev where
  | jobStatus (status : String)
  | fileStatus (fileId : Nat) (status : String)
  | progress
deriving DecidableEq, Repr

/-- Outcome of the per-file loop of the worker.  `thrown` is the
rethrown download/upload error (with the store as left behind);
`crash` is a runtime TypeError from a missing record. -/
inductive PfRes where
  | ok (s : Store) (t : Nat)
  | thrown (msg : String) (s : Store)
  | crash (s : Store)

/-- Store left behind by the per-file loop. -/
def pfStore : PfRes → Store
  | .ok s _ => s
  | .thrown _ s => s
  | .crash s => s

/-- `updateFileStatus(job_id, file_id, 'processing')` as called by the
worker at the top of its per-file loop. -/
def markProcessing (jobId : String) (f : Nat) (s : Store) (t : Nat) : Store :=
  updateFileStatus s jobId f "processing" none none t

/-- `updateFileStatus(job_id, file_id, 'completed', url)` as called by
the worker after a successful download and upload. -/
def markCompleted (jobId : String) (f : Nat) (url : String) (s : Store) (t : Nat) : Store :=
  updateFileStatus s jobId f "completed" (some url) none t

/-- `updateFileStatus(job_id, file_id, 'failed', null, error.message)`
as called by the worker's catch block. -/
def markFailed (jobId : String) (f : Nat) (msg : String) (s : Store) (t : Nat) : Store :=
  updateFileStatus s jobId f "failed" none (some msg) t

/-- The `for (const file_id of file_ids)` loop of the worker:
mark the file `processing`; run the external download/upload (the
oracle `outcome` gives the result per file: `ok url` or
`error message`); on success mark the file `completed` and run
`updateJobProgress`; on failure mark the file `failed` and rethrow.
Returns the stores after each write, the operation log, and the
result.  Each store write happens one time unit after the previous
one. -/
def processFiles (jobId : String) (outcome : Nat → Except String String) :
    List Nat → Store → Nat → List Store × List Ev × PfRes
  | [], s, t => ([], [], .ok s t)
  | f :: rest, s, t =>
    let s1 := markProcessing jobId f s t
    match outcome f with
    | .error msg =>
      let s2 := markFailed jobId f msg s1 (t + 1)
      ([s1, s2], [.fileStatus f "processing", .fileStatus f "failed"], .thrown msg s2)
    | .ok url =>
      let s2 := markCompleted jobId f url s1 (t + 1)
      match updateJobProgress s2 jobId (t + 2) with
      | none => ([s1, s2], [.fileStatus f "processing", .fileStatus f "completed"], .crash s2)
      | some s3 =>
        let r := processFiles jobId outcome rest s3 (t + 3)
        (s1 :: s2 :: s3 :: r.1,
         .fileStatus f "processing" :: .fileStatus f "completed" :: .progress :: r.2.1,
         r.2.2)

/-- Result of one worker invocation on a queue job. -/
inductive WorkerRes where
  | ok (s : Store)
  | thrown (msg : String) (s : Store)
  | crash (s : Store)

/-- Store left behind by a worker invocation. -/
def wStore : WorkerRes → Store
  | .ok s => s
  | .thrown _ s => s
  | .crash s => s

/-- The rethrown error message of a worker invocation, when it threw a
download/upload error. -/
def wThrownMsg : WorkerRes → Option String
  | .thrown m _ => some m
  | _ => none

/-- Whether the worker invocation returned normally. -/
def wIsOk : WorkerRes → Bool
  | .ok _ => true
  | _ => false

/-- One invocation of the BullMQ worker processor on a job
`{job_id, file_ids}`: set the job `processing`, run the per-file loop,
then `createBundle` (external; its result is the oracle `bundle`) and
set the job `completed` with the bundle url.  Returns the stores after
each write, the operation log, and the result. -/
def worker (s0 : Store) (jobId : String) (fileIds : List Nat)
    (outcome : Nat → Except String String) (bundle : String) (t0 : Nat) :
    List Store × List Ev × WorkerRes :=
  match updateJobStatus s0 jobId "processing" none t0 with
  | none => ([], [], .crash s0)
  | some s1 =>
    let r := processFiles jobId outcome fileIds s1 (t0 + 1)
    match r.2.2 with
    | .thrown msg s2 => (s1 :: r.1, .jobStatus "processing" :: r.2.1, .thrown msg s2)
    | .crash s2 => (s1 :: r.1, .jobStatus "processing" :: r.2.1, .crash s2)
    | .ok s2 t =>
      match updateJobStatus s2 jobId "completed" (some bundle) t with
      | none => (s1 :: r.1, .jobStatus "processing" :: r.2.1, .crash s2)
      | some s3 =>
        (s1 :: r.1 ++ [s3], .jobStatus "processing" :: r.2.1 ++ [.jobStatus "completed"],
         .ok s3)

/-- Modelled from the spec: the Job Submission Gate (its code, the
`POST /v1/download/initiate` handler, is not under `src/`)
atomically creates one Job record with status `queued`, progress
`{0, total, 0}` and no `completed_at`, and one FileTask record per file
id with status `queued`, each with the default 24h retention. -/
def createJob (s : Store) (jobId : String) (fileIds : List Nat) (now : Nat) : Store :=
  { jobs := fun k =>
      if k = jobId then
        some ({ job_id := jobId
                status := "queued"
                file_ids := fileIds
                created_at := now
                updated_at := now
                completed_at := none
                progress := { completed := 0, total := fileIds.length, percentage := 0 }
                bundle_url := none
                error := none }, now + 86400)
      else s.jobs k
    files := fun k =>
      if k.1 = jobId ∧ k.2 ∈ fileIds then
        some ({ file_id := k.2
                job_id := jobId
                status := "queued"
                download_url := none
                error := none
                updated_at := now
                started_at := none
                completed_at := none }, now + 86400)
      else s.files k }

/-- BullMQ retries a failed queue job (`attempts: 3` in the queue's
default job options): each element of `outcomes` is the download
oracle for one attempt of the whole worker invocation; retrying stops
at the first invocation that returns normally.  Yields every store
state written during the attempts, in order. -/
def runsTrace (jobId : String) (fileIds : List Nat) (bundle : String) :
    List (Nat → Except String String) → Store → Nat → List Store
  | [], _, _ => []
  | o :: rest, s, t =>
    let r := worker s jobId fileIds o bundle t
    match r.2.2 with
    | .ok _ => r.1
    | .thrown _ s2 => r.1 ++ runsTrace jobId fileIds bundle rest s2 (t + 1000)
    | .crash s2 => r.1 ++ runsTrace jobId fileIds bundle rest s2 (t + 1000)

/-- The lifecycle of one submitted job: creation by the Submission
Gate followed by the worker attempts; the list contains every store
state of the lifecycle, in order. -/
def jobLifecycle (jobId : String) (fileIds : List Nat)
    (outcomes : List (Nat → Except String String)) (bundle : String) (t0 : Nat) :
    List Store :=
  let s0 := createJob emptyStore jobId fileIds t0
  s0 :: runsTrace jobId fileIds bundle outcomes s0 (t0 + 1)

/-- The job record stored under key `k` in the `i`-th store state of a
job's lifecycle. -/
def lifecycleJobAt (jobId : String) (fileIds : List Nat)
    (outcomes : List (Nat → Except String String)) (bundle : String) (t0 : Nat)
    (i : Nat) (k : String) : Option (JobRec × Nat) :=
  match (jobLifecycle jobId fileIds outcomes bundle t0).get? i with
  | none => none
  | some s => s.jobs k

/-- The task-level error taxonomy of the design document. -/
inductive ErrorType where
  | network_error
  | timeout_error
  | storage_error
  | invalid_file
  | quota_exceeded
deriving DecidableEq, BEq, Repr

/-- `shouldRetry`: only network, timeout and storage errors are
retried. -/
def shouldRetry (errorType : ErrorType) : Bool :=
  [ErrorType.network_error, ErrorType.timeout_error, ErrorType.storage_error].contains
    errorType

/-- `processDownloadWithRetry(fileId, attempt)`: run the download (the
oracle gives, per attempt number, either the result or a classified
error); rethrow when the error is not retryable or `attempt >= 3`,
otherwise sleep and recurse with `attempt + 1`. -/
def processDownloadWithRetry (oracle : Nat → Except (ErrorType × String) String)
    (attempt : Nat) : Except (ErrorType × String) String :=
  match oracle attempt with
  | .ok r => .ok r
  | .error e =>
    if h : shouldRetry e.1 = false ∨ 3 ≤ attempt then .error e
    else processDownloadWithRetry oracle (attempt + 1)
termination_by 3 - attempt
decreasing_by
  simp only [not_or] at h
  omega

/-- A record added to the `downloads:failed` dead-letter queue. -/
structure DeadLetter where
  original_job_id : String
  error : String
  attempts : Nat
  failed_at : Nat
deriving DecidableEq, Repr

/-- The data of a BullMQ queue job as enqueued for a download job. -/
structure BullJobData where
  job_id : String
  file_ids : List Nat
deriving DecidableEq, Repr

/-- The BullMQ job object as seen by the `worker.on('failed')`
handler. -/
structure BullJob where
  data : BullJobData
  attemptsMade : Nat
deriving DecidableEq, Repr

/-- The `worker.on('failed')` handler: when the failed queue job has
`attemptsMade >= 3`, add one `manual-review` record to the
`downloads:failed` queue with the original job id, the error message,
the attempt count and the failure time.  Returns the records added by
this invocation. -/
def failedHandler (job : BullJob) (errorMsg : String) (now : Nat) : List DeadLetter :=
  if 3 ≤ job.attemptsMade then
    [{ original_job_id := job.data.job_id
       error := errorMsg
       attempts := job.attemptsMade
       failed_at := now }]
  else []

/-- A store is well-formed for a job when the job record exists and a
file record exists for every id in the record's `file_ids` (this is
what the Submission Gate establishes, and what `updateJobProgress`
needs in order not to throw). -/
def wellFormedB (s : Store) (jobId : String) : Bool :=
  match s.jobs jobId with
  | none => false
  | some (rec, _) => rec.file_ids.all fun f => (s.files (jobId, f)).isSome

/-- The operation log the per-file loop produces for a given file list
and download oracle: for each successful file a `processing` and a
`completed` write followed by one aggregator run; for the first
failing file a `processing` and a `failed` write, and nothing for any
later file. -/
def canonicalLog (outcome : Nat → Except String String) : List Nat → List Ev
  | [] => []
  | f :: rest =>
    match outcome f with
    | .ok _ => .fileStatus f "processing" :: .fileStatus f "completed" :: .progress ::
        canonicalLog outcome rest
    | .error _ => [.fileStatus f "processing", .fileStatus f "failed"]

/-- Whether an operation is a run of the Progress Aggregator. -/
def isProgressEv : Ev → Bool
  | .progress => true
  | _ => false

/-- Whether an operation marks a file task `completed`. -/
def isCompletedEv : Ev → Bool
  | .fileStatus _ st => st = "completed"
  | _ => false

/-- Whether an operation is a terminal file-task transition
(`completed` or `failed`). -/
def isTerminalEv : Ev → Bool
  | .fileStatus _ st => st = "completed" || st = "failed"
  | _ => false

/-- Whether an `Except` value is a success. -/
def exceptOk : Except String String → Bool
  | .ok _ => true
  | .error _ => false

/-- The fields of a stored job record that no per-file operation of
the worker changes: status, error, `completed_at` and `file_ids`. -/
def jobCore (p : JobRec × Nat) : String × Option String × Option Nat × List Nat :=
  (p.1.status, p.1.error, p.1.completed_at, p.1.file_ids)

/-- A job record violates no pre-completion constraint: it is not
`completed` and has no `completed_at`. -/
def preCompletion (s : Store) : Prop :=
  ∀ k rec e, s.jobs k = some (rec, e) → rec.status ≠ "completed" ∧ rec.completed_at = none

/-- The `completed_at` invariant of the claim: set iff the status is
`completed`. -/
def completedAtInv (s : Store) : Prop :=
  ∀ k rec e, s.jobs k = some (rec, e) → (rec.completed_at ≠ none ↔ rec.status = "completed")

/-- Download oracle that always succeeds. -/
def okOracle : Nat → Except String String := fun f => .ok ("url" ++ toString f)

/-- Download oracle that always fails with a network error message. -/
def failOracle : Nat → Except String String := fun _ => .error "network error"

/-- Store of a freshly submitted demo job with three files, two of
which have already been marked completed by the worker. -/
def demoStore : Store :=
  let s0 := createJob emptyStore "j1" [1, 2, 3] 0
  let s1 := updateFileStatus s0 "j1" 1 "completed" (some "u1") none 10
  updateFileStatus s1 "j1" 2 "completed" (some "u2") none 20

/-- A store whose job has been cancelled (by the `DELETE` endpoint)
while its single file task is still queued. -/
def cancelledStore : Store :=
  let s0 := createJob emptyStore "j1" [70000] 0
  { s0 with jobs := fun k =>
      if k = "j1" then
        some ({ job_id := "j1"
                status := "cancelled"
                file_ids := [70000]
                created_at := 0
                updated_at := 5
                completed_at := none
                progress := { completed := 0, total := 1, percentage := 0 }
                bundle_url := none
                error := none }, 86400)
      else none }

/-- The all-retryable download oracle used as the concrete input. -/
def retryOracle : Nat → Except (ErrorType × String) String :=
  fun _ => .error (.network_error, "net down")

/-- An oracle agreeing with `retryOracle` on attempts 1–3 but
succeeding from attempt 4 on: a 4th attempt would change the result,
so the theorem's agreement conclusion shows none is made. -/
def retryOracle' : Nat → Except (ErrorType × String) String :=
  fun n => if n ≤ 3 then .error (.network_error, "net down") else .ok "late success"

/-- The thrown-error message of a per-file-loop result. -/
def pfThrownMsg : PfRes → Option String
  | .thrown m _ => some m
  | _ => none

/-- Final store of a lifecycle whose single file fails with a network
error on all three queue-level attempts. -/
def c5FinalStore : Store :=
  (jobLifecycle "j1" [70000] [failOracle, failOracle, failOracle] "b" 0).getLastD
    emptyStore

/-! ## Theorems -/

/-- C9: every call to `updateFileStatus` replaces the entire stored
file record with a freshly built object containing only the fields
passed to that call (the written record does not depend on the
previous store at all), and marking a task `completed` produces a
record whose `started_at` field is absent, erasing the value recorded
when the task entered `processing`. -/
theorem c9_replacement (s s' : Store) (jobId : String) (f : Nat) (st : String)
    (u err : Option String) (t t1 t2 : Nat) :
    ((updateFileStatus s jobId f st u err t).files (jobId, f) =
      some ({ file_id := f, job_id := jobId, status := st, download_url := u,
              error := err, updated_at := t,
              started_at := if st = "processing" then some t else none,
              completed_at := if st = "completed" then some t else none }, t + 86400)) ∧
    ((updateFileStatus s jobId f st u err t).files (jobId, f) =
      (updateFileStatus s' jobId f st u err t).files (jobId, f)) ∧
    (((updateFileStatus s jobId f "processing" none none t1).files (jobId, f)).map
        (fun p => p.1.started_at) = some (some t1)) ∧
    (((updateFileStatus (updateFileStatus s jobId f "processing" none none t1)
        jobId f "completed" u none t2).files (jobId, f)).map
        (fun p => p.1.started_at) = some none) := by
  refine ⟨?_, ?_, ?_, ?_⟩ <;> simp [updateFileStatus]

/-- C10: `updateJobStatus` and `updateJobProgress` both parse the
stored job value and dereference the result without a null check, so
on an unknown (or already expired and evicted) job id they fail with a
runtime error — modelled as `none`, thrown before any write — rather
than returning a NotFound result. -/
theorem c10_missing_job (s : Store) (jobId st : String) (u : Option String) (now : Nat)
    (h : s.jobs jobId = none) :
    updateJobStatus s jobId st u now = none ∧ updateJobProgress s jobId now = none := by
  constructor
  · simp [updateJobStatus, h]
  · simp [updateJobProgress, h]

/-- Witness for `c10_missing_job` on the empty store. -/
theorem c10_missing_job_witness :
    updateJobStatus emptyStore "nope" "processing" none 0 = none ∧
      updateJobProgress emptyStore "nope" 0 = none :=
  c10_missing_job emptyStore "nope" "processing" none 0 rfl

/-- C2, counterexample: the claim that a task is advanced to
`processing` only from `queued` and never after its job became
`cancelled` is false on the code.  In `cancelledStore` the job is
already `cancelled`, yet the worker invocation's second store state
(right after its unconditional `updateFileStatus(..., 'processing')`)
has the task in `processing`. -/
theorem c2_counterexample :
    ((cancelledStore.jobs "j1").map (fun p => p.1.status) = some "cancelled") ∧
    ((((worker cancelledStore "j1" [70000] okOracle "b" 10).1.get? 1).map
        (fun st => (st.files ("j1", 70000)).map (fun p => p.1.status)))
      = some (some "processing")) := by
  constructor
  · rfl
  · rfl

/-- C2, amended: the worker advances a FileTask to `processing`
unconditionally — `updateFileStatus` overwrites the record with status
`processing` regardless of the task's current status and without
consulting the owning Job's status; in particular, a task still
transitions to `processing` when its Job's stored status is already
`cancelled`, and the cancelled job record itself is untouched by that
write. -/
theorem c2_amended (s : Store) (jobId : String) (f : Nat) (t : Nat) (rec : JobRec)
    (e : Nat) (hjob : s.jobs jobId = some (rec, e)) (hcanc : rec.status = "cancelled") :
    (((updateFileStatus s jobId f "processing" none none t).files (jobId, f)).map
        (fun p => p.1.status) = some "processing") ∧
    ((updateFileStatus s jobId f "processing" none none t).jobs jobId = some (rec, e)) := by
  constructor
  · simp [updateFileStatus]
  · simpa [updateFileStatus] using hjob

/-- Witness for `c2_amended` on the concrete cancelled store. -/
theorem c2_amended_witness :
    (((updateFileStatus cancelledStore "j1" 70000 "processing" none none 10).files
        ("j1", 70000)).map (fun p => p.1.status) = some "processing") ∧
    ((updateFileStatus cancelledStore "j1" 70000 "processing" none none 10).jobs "j1" =
      some ({ job_id := "j1", status := "cancelled", file_ids := [70000], created_at := 0,
              updated_at := 5, completed_at := none,
              progress := { completed := 0, total := 1, percentage := 0 },
              bundle_url := none, error := none }, 86400)) :=
  c2_amended cancelledStore "j1" 70000 10 _ 86400 rfl rfl

/-- C6, counterexample: the claim that a status record's expiry is
fixed at creation and never extended by updates is false on the code:
every write uses `setex(key, 86400, ...)`.  A file record created at
time 0 expires at 86400, but after a status update at time 1000 its
stored expiry is 87400. -/
theorem c6_counterexample :
    (((updateFileStatus emptyStore "j1" 70000 "queued" none none 0).files
        ("j1", 70000)).map Prod.snd = some 86400) ∧
    (((updateFileStatus (updateFileStatus emptyStore "j1" 70000 "queued" none none 0)
        "j1" 70000 "processing" none none 1000).files ("j1", 70000)).map Prod.snd =
      some 87400) ∧ (87400 ≠ 86400) := by
  refine ⟨rfl, rfl, by decide⟩

/-- C6, amended: each write — record creation and every subsequent
status or progress update — sets the record's expiry to 86400 seconds
after that write: updates reset the retention window to 24h from the
update instead of preserving the creation-time expiry. -/
theorem c6_amended (s : Store) (jobId : String) (f : Nat) (st : String)
    (u err : Option String) (now : Nat) (rec : JobRec) (e0 : Nat)
    (hjob : s.jobs jobId = some (rec, e0))
    (hfiles : (countCompleted s jobId rec.file_ids).isSome = true) :
    (((updateJobStatus s jobId st u now).bind (fun s' => s'.jobs jobId)).map Prod.snd =
      some (now + 86400)) ∧
    (((updateFileStatus s jobId f st u err now).files (jobId, f)).map Prod.snd =
      some (now + 86400)) ∧
    (((updateJobProgress s jobId now).bind (fun s' => s'.jobs jobId)).map Prod.snd =
      some (now + 86400)) := by
  refine ⟨?_, ?_, ?_⟩
  · simp [updateJobStatus, hjob]
  · simp [updateFileStatus]
  · rcases Option.isSome_iff_exists.mp hfiles with ⟨c, hc⟩
    simp [updateJobProgress, hjob, hc]

/-- Witness for `c6_amended` on the demo store. -/
theorem c6_amended_witness :
    (((updateJobStatus demoStore "j1" "processing" none 1000).bind
        (fun s' => s'.jobs "j1")).map Prod.snd = some 87400) ∧
    (((updateFileStatus demoStore "j1" 3 "processing" none none 1000).files
        ("j1", 3)).map Prod.snd = some 87400) ∧
    (((updateJobProgress demoStore "j1" 1000).bind (fun s' => s'.jobs "j1")).map
        Prod.snd = some 87400) :=
  c6_amended demoStore "j1" 3 "processing" none none 1000 _ 86400 rfl (by decide)

/-- The completed count computed by `updateJobProgress` never exceeds
the number of files scanned. -/
theorem countCompleted_le (s : Store) (jobId : String) :
    ∀ l c, countCompleted s jobId l = some c → c ≤ l.length := by
  intro l
  induction l with
  | nil => intro c hc; simp [countCompleted] at hc; omega
  | cons f rest ih =>
    intro c hc
    simp only [countCompleted] at hc
    rcases hf : s.files (jobId, f) with _ | ⟨file, e⟩ <;> rw [hf] at hc
    · exact absurd hc (by simp)
    · rcases hr : countCompleted s jobId rest with _ | c' <;> rw [hr] at hc
      · exact absurd hc (by simp)
      · have := ih c' hr
        by_cases hst : file.status = "completed" <;>
          simp [hst] at hc <;> simp [List.length_cons] <;> omega

/-- C3: after each progress recomputation, the job's progress satisfies
`total = file_ids.length`, `percentage = round(100*completed/total)`
(half-up rounding of the exact rational, the reading of the spec's
`round`), and `percentage ≤ 100` (hence `0 ≤ percentage ≤ 100`),
whenever the job has at least one file. -/
theorem c3_progress_invariants (s : Store) (jobId : String) (now : Nat) (rec : JobRec)
    (e : Nat)
    (h : (updateJobProgress s jobId now).bind (fun s' => s'.jobs jobId) = some (rec, e))
    (hne : rec.file_ids ≠ []) :
    rec.progress.total = rec.file_ids.length ∧
    rec.progress.percentage = specRound (100 * rec.progress.completed) rec.progress.total ∧
    rec.progress.percentage ≤ 100 := by
  rcases hj : s.jobs jobId with _ | ⟨job, e0⟩
  · simp [updateJobProgress, hj] at h
  · rcases hc : countCompleted s jobId job.file_ids with _ | c
    · simp [updateJobProgress, hj, hc] at h
    · simp [updateJobProgress, hj, hc] at h
      obtain ⟨hrec, _⟩ := h
      subst hrec
      have hcle : c ≤ job.file_ids.length := countCompleted_le s jobId _ c hc
      have hne' : job.file_ids ≠ [] := by simpa using hne
      have hpos : 0 < job.file_ids.length := List.length_pos.mpr hne'
      refine ⟨rfl, ?_, ?_⟩
      · simp [mathRound, specRound, Nat.mul_comm]
      · show mathRound (c * 100) job.file_ids.length ≤ 100
        rw [mathRound]
        have hlt : (2 * (c * 100) + job.file_ids.length) /
            (2 * job.file_ids.length) < 101 := by
          rw [Nat.div_lt_iff_lt_mul (by omega : 0 < 2 * job.file_ids.length)]
          omega
        omega

/-- Witness for `c3_progress_invariants`: recomputing progress on the
demo store (two of three files completed) yields total 3 and
percentage `round(200/3) = 67`. -/
theorem c3_progress_invariants_witness :
    ({ completed := 2, total := 3, percentage := 67 } : Progress).total = [1, 2, 3].length ∧
    ({ completed := 2, total := 3, percentage := 67 } : Progress).percentage =
      specRound (100 * 2) 3 ∧
    ({ completed := 2, total := 3, percentage := 67 } : Progress).percentage ≤ 100 := by
  have h := c3_progress_invariants demoStore "j1" 30
    { job_id := "j1", status := "queued", file_ids := [1, 2, 3], created_at := 0,
      updated_at := 0, completed_at := none,
      progress := { completed := 2, total := 3, percentage := 67 },
      bundle_url := none, error := none } 86430 (by decide) (by decide)
  exact h

/-- One-step unfolding of `processDownloadWithRetry`. -/
theorem retry_unfold (oracle : Nat → Except (ErrorType × String) String) (a : Nat) :
    processDownloadWithRetry oracle a =
      match oracle a with
      | .ok r => .ok r
      | .error e =>
        if h : shouldRetry e.1 = false ∨ 3 ≤ a then .error e
        else processDownloadWithRetry oracle (a + 1) := by
  rw [processDownloadWithRetry]

/-- `processDownloadWithRetry` started at attempt `a` never consults
the oracle beyond attempt 3: oracles agreeing up to attempt 3 give the
same result from attempt 3, 2 and 1. -/
theorem retry_agree (oracle oracle' : Nat → Except (ErrorType × String) String)
    (hag : ∀ n, n ≤ 3 → oracle' n = oracle n) (a : Nat) (h1 : 1 ≤ a) (h3 : a ≤ 3) :
    processDownloadWithRetry oracle' a = processDownloadWithRetry oracle a := by
  have step3 : processDownloadWithRetry oracle' 3 = processDownloadWithRetry oracle 3 := by
    rw [retry_unfold oracle' 3, retry_unfold oracle 3, hag 3 le_rfl]
    cases ho : oracle 3 <;> simp [ho]
  have step2 : processDownloadWithRetry oracle' 2 = processDownloadWithRetry oracle 2 := by
    rw [retry_unfold oracle' 2, retry_unfold oracle 2, hag 2 (by omega)]
    cases ho : oracle 2 with
    | ok r => simp [ho]
    | error e =>
      by_cases hr : shouldRetry e.1 = false
      · simp [ho, hr]
      · simp [ho, hr, step3]
  have step1 : processDownloadWithRetry oracle' 1 = processDownloadWithRetry oracle 1 := by
    rw [retry_unfold oracle' 1, retry_unfold oracle 1, hag 1 (by omega)]
    cases ho : oracle 1 with
    | ok r => simp [ho]
    | error e =>
      by_cases hr : shouldRetry e.1 = false
      · simp [ho, hr]
      · simp [ho, hr, step2]
  interval_cases a
  · exact step1
  · exact step2
  · exact step3

/-- C1, amended: a FileTask whose download attempts all fail with a
retryable error is failed after exactly 3 attempts — the result is the
attempt-3 error and the oracle is never consulted at attempt 4 or
later — and the `worker.on('failed')` handler produces exactly one
dead-letter record at retry exhaustion (`attemptsMade = 3`, none
earlier), capturing the job id, the error and the attempt count; the
file id does not appear in the record. -/
theorem c1_amended (oracle : Nat → Except (ErrorType × String) String)
    (h : ∀ n, 1 ≤ n → n ≤ 3 → ∃ p, oracle n = .error p ∧ shouldRetry p.1 = true)
    (oracle' : Nat → Except (ErrorType × String) String)
    (hag : ∀ n, n ≤ 3 → oracle' n = oracle n)
    (jobId : String) (fileIds : List Nat) (msg : String) (now : Nat) :
    (∃ p, oracle 3 = .error p ∧ processDownloadWithRetry oracle 1 = .error p) ∧
    (processDownloadWithRetry oracle' 1 = processDownloadWithRetry oracle 1) ∧
    (failedHandler { data := { job_id := jobId, file_ids := fileIds }, attemptsMade := 3 }
        msg now =
      [{ original_job_id := jobId, error := msg, attempts := 3, failed_at := now }]) ∧
    (∀ a, a < 3 →
      failedHandler { data := { job_id := jobId, file_ids := fileIds }, attemptsMade := a }
        msg now = []) := by
  obtain ⟨p1, hp1, hr1⟩ := h 1 (by omega) (by omega)
  obtain ⟨p2, hp2, hr2⟩ := h 2 (by omega) (by omega)
  obtain ⟨p3, hp3, hr3⟩ := h 3 (by omega) (by omega)
  refine ⟨⟨p3, hp3, ?_⟩, retry_agree oracle oracle' hag 1 le_rfl (by omega), ?_, ?_⟩
  · have e1 : processDownloadWithRetry oracle 1 = processDownloadWithRetry oracle 2 := by
      rw [retry_unfold, hp1]
      simp [hr1]
    have e2 : processDownloadWithRetry oracle 2 = processDownloadWithRetry oracle 3 := by
      rw [retry_unfold, hp2]
      simp [hr2]
    have e3 : processDownloadWithRetry oracle 3 = .error p3 := by
      rw [retry_unfold, hp3]
      simp
    rw [e1, e2, e3]
  · simp [failedHandler]
  · intro a ha
    simp [failedHandler]
    omega

/-- Witness for `c1_amended` at the concrete all-retryable oracle. -/
theorem c1_amended_witness :
    (processDownloadWithRetry retryOracle 1 =
      .error (ErrorType.network_error, "net down")) ∧
    (processDownloadWithRetry retryOracle' 1 = processDownloadWithRetry retryOracle 1) ∧
    (failedHandler { data := { job_id := "j1", file_ids := [70000] }, attemptsMade := 3 }
        "net down" 9 =
      [{ original_job_id := "j1", error := "net down", attempts := 3, failed_at := 9 }]) ∧
    (failedHandler { data := { job_id := "j1", file_ids := [70000] }, attemptsMade := 2 }
        "net down" 9 = []) := by
  obtain ⟨⟨p, hp, hres⟩, hb, hc, hd⟩ := c1_amended retryOracle
    (fun n _ _ => ⟨(ErrorType.network_error, "net down"), rfl, rfl⟩) retryOracle'
    (fun n hn => by simp [retryOracle', retryOracle, hn]) "j1" [70000] "net down" 9
  have hp' : p = (ErrorType.network_error, "net down") := by
    simpa [retryOracle] using hp.symm
  subst hp'
  exact ⟨hres, hb, hc, hd 2 (by omega)⟩

/-- C1, counterexample: the dead-letter record does not capture the
file id.  Two single-file jobs identical except for their failing file
id (70000 vs 70001) produce identical dead-letter records, so no
function of the record can recover which file failed. -/
theorem c1_counterexample :
    (failedHandler { data := { job_id := "j1", file_ids := [70000] }, attemptsMade := 3 }
        "network error" 5 =
      failedHandler { data := { job_id := "j1", file_ids := [70001] }, attemptsMade := 3 }
        "network error" 5) ∧
    (70000 ≠ 70001) := by
  exact ⟨rfl, by decide⟩

/-! ### Operation-level lemmas -/

/-- `updateFileStatus` never touches job records. -/
theorem updateFileStatus_jobs (s : Store) (jobId : String) (f : Nat) (st : String)
    (u err : Option String) (t : Nat) :
    (updateFileStatus s jobId f st u err t).jobs = s.jobs := rfl

/-- `updateFileStatus` leaves every other file key unchanged. -/
theorem updateFileStatus_files_ne (s : Store) (jobId : String) (f : Nat) (st : String)
    (u err : Option String) (t : Nat) (k : String × Nat) (hk : k ≠ (jobId, f)) :
    (updateFileStatus s jobId f st u err t).files k = s.files k := by
  simp [updateFileStatus, hk]

/-- Shape of a successful `updateJobStatus`. -/
theorem updateJobStatus_spec (s : Store) (jobId st : String) (u : Option String)
    (now : Nat) (s' : Store) (h : updateJobStatus s jobId st u now = some s') :
    ∃ rec e, s.jobs jobId = some (rec, e) ∧ s'.files = s.files ∧
      (∀ k, k ≠ jobId → s'.jobs k = s.jobs k) ∧
      s'.jobs jobId = some
        ((if st = "completed" then
            { rec with
                status := st
                updated_at := now
                completed_at := some now
                bundle_url := u }
          else { rec with status := st, updated_at := now }), now + 86400) := by
  rcases hj : s.jobs jobId with _ | ⟨rec, e⟩
  · simp [updateJobStatus, hj] at h
  · simp only [updateJobStatus, hj] at h
    refine ⟨rec, e, rfl, ?_, ?_, ?_⟩
    · rw [← Option.some_inj.mp h]
    · intro k hk
      rw [← Option.some_inj.mp h]
      simp [hk]
    · rw [← Option.some_inj.mp h]
      by_cases hst : st = "completed" <;> simp [hst]

/-- Shape of a successful `updateJobProgress`. -/
theorem updateJobProgress_spec (s : Store) (jobId : String) (now : Nat) (s' : Store)
    (h : updateJobProgress s jobId now = some s') :
    ∃ rec e c, s.jobs jobId = some (rec, e) ∧
      countCompleted s jobId rec.file_ids = some c ∧ s'.files = s.files ∧
      (∀ k, k ≠ jobId → s'.jobs k = s.jobs k) ∧
      s'.jobs jobId = some
        ({ rec with progress :=
            { completed := c, total := rec.file_ids.length,
              percentage := mathRound (c * 100) rec.file_ids.length } }, now + 86400) := by
  rcases hj : s.jobs jobId with _ | ⟨rec, e⟩
  · simp [updateJobProgress, hj] at h
  · rcases hc : countCompleted s jobId rec.file_ids with _ | c
    · simp [updateJobProgress, hj, hc] at h
    · simp only [updateJobProgress, hj, hc] at h
      refine ⟨rec, e, c, rfl, hc, ?_, ?_, ?_⟩
      · rw [← Option.some_inj.mp h]
      · intro k hk
        rw [← Option.some_inj.mp h]
        simp [hk]
      · rw [← Option.some_inj.mp h]
        simp

/-- `updateJobProgress` preserves the core fields (status, error,
`completed_at`, `file_ids`) of every stored job record. -/
theorem updateJobProgress_core (s : Store) (jobId : String) (now : Nat) (s' : Store)
    (h : updateJobProgress s jobId now = some s') (k : String) :
    (s'.jobs k).map jobCore = (s.jobs k).map jobCore := by
  obtain ⟨rec, e, c, hj, hc, hfiles, hother, hjid⟩ := updateJobProgress_spec s jobId now s' h
  by_cases hk : k = jobId
  · subst hk; rw [hjid, hj]; rfl
  · rw [hother k hk]

/-- Destructured form of a well-formed store. -/
theorem wellFormedB_some {s : Store} {jobId : String} (h : wellFormedB s jobId = true) :
    ∃ rec e, s.jobs jobId = some (rec, e) ∧
      ∀ f ∈ rec.file_ids, (s.files (jobId, f)).isSome = true := by
  unfold wellFormedB at h
  rcases hj : s.jobs jobId with _ | ⟨rec, e⟩ <;> rw [hj] at h
  · simp at h
  · exact ⟨rec, e, rfl, by simpa [List.all_eq_true] using h⟩

/-- Constructor form of a well-formed store. -/
theorem wellFormedB_intro {s : Store} {jobId : String} (rec : JobRec) (e : Nat)
    (hj : s.jobs jobId = some (rec, e))
    (hf : ∀ f ∈ rec.file_ids, (s.files (jobId, f)).isSome = true) :
    wellFormedB s jobId = true := by
  unfold wellFormedB
  rw [hj]
  simpa [List.all_eq_true] using hf

/-- The count loop succeeds when every scanned file record exists. -/
theorem countCompleted_isSome (s : Store) (jobId : String) :
    ∀ l, (∀ f ∈ l, (s.files (jobId, f)).isSome = true) →
      (countCompleted s jobId l).isSome = true := by
  intro l
  induction l with
  | nil => intro _; simp [countCompleted]
  | cons f rest ih =>
    intro h
    have hf := h f (by simp)
    rcases Option.isSome_iff_exists.mp hf with ⟨⟨file, e⟩, hfe⟩
    have hr := ih fun g hg => h g (by simp [hg])
    rcases Option.isSome_iff_exists.mp hr with ⟨c, hc⟩
    simp [countCompleted, hfe, hc]

/-- On a well-formed store `updateJobProgress` does not throw. -/
theorem updateJobProgress_isSome {s : Store} {jobId : String}
    (h : wellFormedB s jobId = true) (now : Nat) :
    ∃ s', updateJobProgress s jobId now = some s' := by
  obtain ⟨rec, e, hj, hf⟩ := wellFormedB_some h
  have hcnt := countCompleted_isSome s jobId rec.file_ids hf
  rcases Option.isSome_iff_exists.mp hcnt with ⟨c, hc⟩
  apply Option.isSome_iff_exists.mp
  simp [updateJobProgress, hj, hc]

/-- `updateFileStatus` preserves well-formedness. -/
theorem wellFormedB_updateFileStatus {s : Store} {jobId : String}
    (h : wellFormedB s jobId = true) (f : Nat) (st : String) (u err : Option String)
    (t : Nat) : wellFormedB (updateFileStatus s jobId f st u err t) jobId = true := by
  obtain ⟨rec, e, hj, hf⟩ := wellFormedB_some h
  refine wellFormedB_intro rec e (by rw [updateFileStatus_jobs]; exact hj) ?_
  intro g hg
  by_cases hgf : ((jobId, g) : String × Nat) = (jobId, f)
  · simp [updateFileStatus, hgf]
  · rw [updateFileStatus_files_ne s jobId f st u err t _ hgf]
    exact hf g hg

/-- `updateJobProgress` preserves well-formedness. -/
theorem wellFormedB_updateJobProgress {s : Store} {jobId : String} {now : Nat}
    {s' : Store} (h : updateJobProgress s jobId now = some s')
    (hwf : wellFormedB s jobId = true) : wellFormedB s' jobId = true := by
  obtain ⟨rec, e, hj, hf⟩ := wellFormedB_some hwf
  obtain ⟨rec', e', c, hj', hc, hfiles, hother, hjid⟩ := updateJobProgress_spec s jobId now s' h
  rw [hj] at hj'
  simp only [Option.some.injEq, Prod.mk.injEq] at hj'
  obtain ⟨hrec, he'⟩ := hj'
  subst hrec
  refine wellFormedB_intro _ _ hjid ?_
  intro g hg
  rw [hfiles]
  exact hf g hg

/-- `updateJobStatus` preserves well-formedness. -/
theorem wellFormedB_updateJobStatus {s : Store} {jobId : String} {st : String}
    {u : Option String} {now : Nat} {s' : Store}
    (h : updateJobStatus s jobId st u now = some s')
    (hwf : wellFormedB s jobId = true) : wellFormedB s' jobId = true := by
  obtain ⟨rec, e, hj, hf⟩ := wellFormedB_some hwf
  obtain ⟨rec', e', hj', hfiles, hother, hjid⟩ := updateJobStatus_spec s jobId st u now s' h
  rw [hj] at hj'
  simp only [Option.some.injEq, Prod.mk.injEq] at hj'
  obtain ⟨hrec, he'⟩ := hj'
  subst hrec
  by_cases hst : st = "completed"
  · rw [hst] at hjid
    simp only [if_pos] at hjid
    refine wellFormedB_intro _ _ hjid ?_
    intro g hg
    rw [hfiles]
    exact hf g hg
  · rw [if_neg hst] at hjid
    refine wellFormedB_intro _ _ hjid ?_
    intro g hg
    rw [hfiles]
    exact hf g hg

/-! ### Per-file-loop lemmas -/

/-- No operation of the per-file loop changes the core fields (status,
error, `completed_at`, `file_ids`) of any stored job record: this holds
for every intermediate store state and for the store the loop leaves
behind. -/
theorem processFiles_core (jobId : String) (outcome : Nat → Except String String) :
    ∀ fids (s : Store) (t : Nat),
      (∀ st ∈ (processFiles jobId outcome fids s t).1, ∀ k,
        (st.jobs k).map jobCore = (s.jobs k).map jobCore) ∧
      (∀ k, ((pfStore (processFiles jobId outcome fids s t).2.2).jobs k).map jobCore =
        (s.jobs k).map jobCore) := by
  intro fids
  induction fids with
  | nil =>
    intro s t
    refine ⟨?_, ?_⟩
    · intro st hst
      simp [processFiles] at hst
    · intro k
      rfl
  | cons f rest ih =>
    intro s t
    cases ho : outcome f with
    | error msg =>
      refine ⟨?_, ?_⟩
      · intro st hst
        simp only [processFiles, ho, List.mem_cons, List.not_mem_nil, or_false] at hst
        rcases hst with rfl | rfl
        · intro k; rfl
        · intro k; rfl
      · intro k
        have he : pfStore (processFiles jobId outcome (f :: rest) s t).2.2 =
            markFailed jobId f msg (markProcessing jobId f s t) (t + 1) := by
          simp [processFiles, ho, pfStore]
        rw [he]
        rfl
    | ok url =>
      cases hup : updateJobProgress
          (markCompleted jobId f url (markProcessing jobId f s t) (t + 1)) jobId (t + 2) with
      | none =>
        refine ⟨?_, ?_⟩
        · intro st hst
          simp only [processFiles, ho, hup, List.mem_cons, List.not_mem_nil, or_false] at hst
          rcases hst with rfl | rfl
          · intro k; rfl
          · intro k; rfl
        · intro k
          have he : pfStore (processFiles jobId outcome (f :: rest) s t).2.2 =
              markCompleted jobId f url (markProcessing jobId f s t) (t + 1) := by
            simp [processFiles, ho, hup, pfStore]
          rw [he]
          rfl
      | some s3 =>
        have hcore3 : ∀ k, (s3.jobs k).map jobCore = (s.jobs k).map jobCore := fun k =>
          updateJobProgress_core _ _ _ _ hup k
        obtain ⟨ihtr, ihres⟩ := ih s3 (t + 3)
        refine ⟨?_, ?_⟩
        · intro st hst
          simp only [processFiles, ho, hup, List.mem_cons] at hst
          rcases hst with rfl | rfl | rfl | hmem
          · intro k; rfl
          · intro k; rfl
          · intro k; exact hcore3 k
          · intro k; rw [ihtr st hmem k, hcore3 k]
        · intro k
          have he : (processFiles jobId outcome (f :: rest) s t).2.2 =
              (processFiles jobId outcome rest s3 (t + 3)).2.2 := by
            simp [processFiles, ho, hup]
          rw [he, ihres k, hcore3 k]

/-- On a well-formed store the per-file loop performs exactly the
canonical operation sequence. -/
theorem processFiles_log (jobId : String) (outcome : Nat → Except String String) :
    ∀ fids (s : Store) (t : Nat), wellFormedB s jobId = true →
      (processFiles jobId outcome fids s t).2.1 = canonicalLog outcome fids := by
  intro fids
  induction fids with
  | nil => intro s t _; rfl
  | cons f rest ih =>
    intro s t hwf
    cases ho : outcome f with
    | error msg => simp [processFiles, ho, canonicalLog]
    | ok url =>
      have hwf1 : wellFormedB (markProcessing jobId f s t) jobId = true :=
        wellFormedB_updateFileStatus hwf f "processing" none none t
      have hwf2 : wellFormedB
          (markCompleted jobId f url (markProcessing jobId f s t) (t + 1)) jobId = true :=
        wellFormedB_updateFileStatus hwf1 f "completed" (some url) none (t + 1)
      obtain ⟨s3, hup⟩ := updateJobProgress_isSome hwf2 (t + 2)
      have hwf3 := wellFormedB_updateJobProgress hup hwf2
      simp only [processFiles, ho, hup, canonicalLog]
      simp [ih s3 (t + 3) hwf3]

/-- Decomposition of the canonical log at the first failing file. -/
theorem canonicalLog_decomp (outcome : Nat → Except String String) (f : Nat)
    (msg : String) (hf : outcome f = .error msg) :
    ∀ l₁, (∀ x ∈ l₁, exceptOk (outcome x) = true) → ∀ l₂,
      canonicalLog outcome (l₁ ++ f :: l₂) =
        l₁.flatMap (fun x =>
          [Ev.fileStatus x "processing", Ev.fileStatus x "completed", Ev.progress]) ++
          [Ev.fileStatus f "processing", Ev.fileStatus f "failed"] := by
  intro l₁
  induction l₁ with
  | nil =>
    intro _ l₂
    simp [canonicalLog, hf]
  | cons x l ih =>
    intro h l₂
    have hx := h x (by simp)
    cases hox : outcome x with
    | error m => rw [hox] at hx; simp [exceptOk] at hx
    | ok u =>
      simp only [List.cons_append, canonicalLog, hox, List.flatMap_cons, List.append_assoc]
      simp [ih (fun y hy => h y (by simp [hy])) l₂]

/-- In the canonical log, aggregator runs and `completed` transitions
are in one-to-one correspondence. -/
theorem canonicalLog_counts (outcome : Nat → Except String String) :
    ∀ fids, ((canonicalLog outcome fids).filter isProgressEv).length =
      ((canonicalLog outcome fids).filter isCompletedEv).length := by
  intro fids
  induction fids with
  | nil => rfl
  | cons f rest ih =>
    cases ho : outcome f with
    | ok u =>
      simp only [canonicalLog, ho, List.filter_cons]
      simp [isProgressEv, isCompletedEv, ih]
    | error m =>
      simp only [canonicalLog, ho, List.filter_cons]
      simp [isProgressEv, isCompletedEv]

/-- `updateJobStatus` does not throw when the job record exists. -/
theorem updateJobStatus_isSome {s : Store} {jobId : String}
    (h : (s.jobs jobId).isSome = true) (st : String) (u : Option String) (now : Nat) :
    ∃ s', updateJobStatus s jobId st u now = some s' := by
  rcases Option.isSome_iff_exists.mp h with ⟨⟨rec, e⟩, hj⟩
  apply Option.isSome_iff_exists.mp
  simp [updateJobStatus, hj]

/-- Running the per-file loop on a list whose first failing file is
`f` (all earlier files succeed) rethrows `f`'s error, and leaves the
file record of every file other than `f` and the successful ones
untouched. -/
theorem processFiles_fail (jobId : String) (outcome : Nat → Except String String)
    (f : Nat) (msg : String) (hf : outcome f = .error msg) :
    ∀ l₁, (∀ x ∈ l₁, exceptOk (outcome x) = true) →
      ∀ l₂ (s : Store) (t : Nat), wellFormedB s jobId = true →
      pfThrownMsg (processFiles jobId outcome (l₁ ++ f :: l₂) s t).2.2 = some msg ∧
      ∀ g, g ∉ l₁ → g ≠ f →
        (pfStore (processFiles jobId outcome (l₁ ++ f :: l₂) s t).2.2).files (jobId, g) =
          s.files (jobId, g) := by
  intro l₁
  induction l₁ with
  | nil =>
    intro _ l₂ s t _
    constructor
    · simp [processFiles, hf, pfThrownMsg]
    · intro g hg1 hg2
      have hne : ((jobId, g) : String × Nat) ≠ (jobId, f) := by simp [hg2]
      have he : pfStore (processFiles jobId outcome ([] ++ f :: l₂) s t).2.2 =
          markFailed jobId f msg (markProcessing jobId f s t) (t + 1) := by
        simp [processFiles, hf, pfStore]
      rw [he]
      simp only [markFailed, markProcessing]
      rw [updateFileStatus_files_ne _ _ _ _ _ _ _ _ hne,
          updateFileStatus_files_ne _ _ _ _ _ _ _ _ hne]
  | cons x l ih =>
    intro hok l₂ s t hwf
    have hx := hok x (by simp)
    cases hox : outcome x with
    | error m => rw [hox] at hx; simp [exceptOk] at hx
    | ok url =>
      have hwf1 : wellFormedB (markProcessing jobId x s t) jobId = true :=
        wellFormedB_updateFileStatus hwf x "processing" none none t
      have hwf2 : wellFormedB
          (markCompleted jobId x url (markProcessing jobId x s t) (t + 1)) jobId = true :=
        wellFormedB_updateFileStatus hwf1 x "completed" (some url) none (t + 1)
      obtain ⟨s3, hup⟩ := updateJobProgress_isSome hwf2 (t + 2)
      have hwf3 := wellFormedB_updateJobProgress hup hwf2
      obtain ⟨ih1, ih2⟩ := ih (fun y hy => hok y (by simp [hy])) l₂ s3 (t + 3) hwf3
      have hres : (processFiles jobId outcome ((x :: l) ++ f :: l₂) s t).2.2 =
          (processFiles jobId outcome (l ++ f :: l₂) s3 (t + 3)).2.2 := by
        simp [processFiles, hox, hup]
      constructor
      · rw [hres]
        exact ih1
      · intro g hg1 hg2
        have hgx : g ≠ x := fun hgx => hg1 (by simp [hgx])
        have hnex : ((jobId, g) : String × Nat) ≠ (jobId, x) := by simp [hgx]
        rw [hres, ih2 g (fun hm => hg1 (by simp [hm])) hg2]
        have hfiles3 : s3.files =
            (markCompleted jobId x url (markProcessing jobId x s t) (t + 1)).files := by
          obtain ⟨_, _, _, _, _, hfe, _, _⟩ := updateJobProgress_spec _ _ _ _ hup
          exact hfe
        rw [hfiles3]
        simp only [markCompleted, markProcessing]
        rw [updateFileStatus_files_ne _ _ _ _ _ _ _ _ hnex,
            updateFileStatus_files_ne _ _ _ _ _ _ _ _ hnex]

/-- C7, counterexample: the claim that every terminal transition
triggers the Progress Aggregator exactly once is false on the code: on
a run whose single file fails, the log contains one terminal
transition (`failed`) and zero aggregator runs — the catch branch of
the worker rethrows without calling `updateJobProgress`. -/
theorem c7_counterexample :
    (((worker (createJob emptyStore "j2" [7] 0) "j2" [7] failOracle "b" 1).2.1.filter
        isTerminalEv).length = 1) ∧
    (((worker (createJob emptyStore "j2" [7] 0) "j2" [7] failOracle "b" 1).2.1.filter
        isProgressEv).length = 0) := by
  exact ⟨rfl, rfl⟩

/-- C7, amended: on a well-formed store, every transition of a
FileTask to `completed` triggers the Progress Aggregator exactly once
(aggregator runs and `completed` transitions are in bijection in the
worker's operation log); transitions to `failed` never trigger it. -/
theorem c7_amended (s : Store) (jobId : String) (fids : List Nat)
    (outcome : Nat → Except String String) (bundle : String) (t0 : Nat)
    (hwf : wellFormedB s jobId = true) :
    (((worker s jobId fids outcome bundle t0).2.1).filter isProgressEv).length =
      (((worker s jobId fids outcome bundle t0).2.1).filter isCompletedEv).length := by
  obtain ⟨rec, e, hj, _⟩ := wellFormedB_some hwf
  obtain ⟨s1, h1⟩ := @updateJobStatus_isSome s jobId (by simp [hj]) "processing" none t0
  have hwf1 := wellFormedB_updateJobStatus h1 hwf
  have hlog := processFiles_log jobId outcome fids s1 (t0 + 1) hwf1
  have hcnt := canonicalLog_counts outcome fids
  cases hr : (processFiles jobId outcome fids s1 (t0 + 1)).2.2 with
  | thrown msg s2 =>
    have he : (worker s jobId fids outcome bundle t0).2.1 =
        Ev.jobStatus "processing" :: (processFiles jobId outcome fids s1 (t0 + 1)).2.1 := by
      simp [worker, h1, hr]
    rw [he, hlog]
    simp only [List.filter_cons]
    simpa [isProgressEv, isCompletedEv] using hcnt
  | crash s2 =>
    have he : (worker s jobId fids outcome bundle t0).2.1 =
        Ev.jobStatus "processing" :: (processFiles jobId outcome fids s1 (t0 + 1)).2.1 := by
      simp [worker, h1, hr]
    rw [he, hlog]
    simp only [List.filter_cons]
    simpa [isProgressEv, isCompletedEv] using hcnt
  | ok s2 t =>
    cases h2 : updateJobStatus s2 jobId "completed" (some bundle) t with
    | none =>
      have he : (worker s jobId fids outcome bundle t0).2.1 =
          Ev.jobStatus "processing" :: (processFiles jobId outcome fids s1 (t0 + 1)).2.1 := by
        simp [worker, h1, hr, h2]
      rw [he, hlog]
      simp only [List.filter_cons]
      simpa [isProgressEv, isCompletedEv] using hcnt
    | some s3 =>
      have he : (worker s jobId fids outcome bundle t0).2.1 =
          Ev.jobStatus "processing" ::
            (processFiles jobId outcome fids s1 (t0 + 1)).2.1 ++ [Ev.jobStatus "completed"] := by
        simp [worker, h1, hr, h2]
      rw [he, hlog]
      simp only [List.filter_cons, List.filter_append]
      simpa [isProgressEv, isCompletedEv] using hcnt

/-- Witness for `c7_amended`: a two-file all-success run, with two
completed transitions and two aggregator runs. -/
theorem c7_amended_witness :
    (((worker (createJob emptyStore "j3" [4, 5] 0) "j3" [4, 5] okOracle "b" 1).2.1).filter
        isProgressEv).length =
      (((worker (createJob emptyStore "j3" [4, 5] 0) "j3" [4, 5] okOracle "b" 1).2.1).filter
        isCompletedEv).length :=
  c7_amended (createJob emptyStore "j3" [4, 5] 0) "j3" [4, 5] okOracle "b" 1 (by decide)

/-- C8: within a single job, one worker invocation executes the
FileTasks strictly sequentially in `file_ids` order: the operation log
is exactly `processing, completed, aggregate` for each file before the
first failing file `f` (each task enters `processing` only after every
earlier task has completed), then `processing, failed` for `f`, and
nothing afterwards — the invocation rethrows `f`'s error and the file
records of all later files are left untouched (they remain `queued` as
created). -/
theorem c8_sequential (s : Store) (jobId : String)
    (outcome : Nat → Except String String) (bundle : String) (t0 : Nat)
    (l₁ l₂ : List Nat) (f : Nat) (msg : String)
    (hwf : wellFormedB s jobId = true)
    (hok : ∀ x ∈ l₁, exceptOk (outcome x) = true)
    (hf : outcome f = Except.error msg)
    (hnodup : (l₁ ++ f :: l₂).Nodup) :
    ((worker s jobId (l₁ ++ f :: l₂) outcome bundle t0).2.1 =
      Ev.jobStatus "processing" ::
        (l₁.flatMap (fun x =>
          [Ev.fileStatus x "processing", Ev.fileStatus x "completed", Ev.progress]) ++
          [Ev.fileStatus f "processing", Ev.fileStatus f "failed"])) ∧
    (wThrownMsg (worker s jobId (l₁ ++ f :: l₂) outcome bundle t0).2.2 = some msg) ∧
    (∀ g ∈ l₂,
      (wStore (worker s jobId (l₁ ++ f :: l₂) outcome bundle t0).2.2).files (jobId, g) =
        s.files (jobId, g)) := by
  obtain ⟨rec, e, hj, _⟩ := wellFormedB_some hwf
  obtain ⟨s1, h1⟩ := @updateJobStatus_isSome s jobId (by simp [hj]) "processing" none t0
  have hwf1 := wellFormedB_updateJobStatus h1 hwf
  obtain ⟨hmsg, huntouched⟩ :=
    processFiles_fail jobId outcome f msg hf l₁ hok l₂ s1 (t0 + 1) hwf1
  rw [List.nodup_append] at hnodup
  obtain ⟨_, hnd2, hdisj⟩ := hnodup
  have hglem : ∀ g ∈ l₂, g ∉ l₁ ∧ g ≠ f := by
    intro g hg
    constructor
    · intro hgl₁
      exact hdisj hgl₁ (by simp [hg])
    · intro hgf
      subst hgf
      exact (List.nodup_cons.mp hnd2).1 hg
  cases hr : (processFiles jobId outcome (l₁ ++ f :: l₂) s1 (t0 + 1)).2.2 with
  | ok s2 t => rw [hr] at hmsg; simp [pfThrownMsg] at hmsg
  | crash s2 => rw [hr] at hmsg; simp [pfThrownMsg] at hmsg
  | thrown m s2 =>
    have hm : m = msg := by
      rw [hr] at hmsg
      simpa [pfThrownMsg] using hmsg
    subst hm
    refine ⟨?_, ?_, ?_⟩
    · have he : (worker s jobId (l₁ ++ f :: l₂) outcome bundle t0).2.1 =
          Ev.jobStatus "processing" ::
            (processFiles jobId outcome (l₁ ++ f :: l₂) s1 (t0 + 1)).2.1 := by
        simp [worker, h1, hr]
      rw [he, processFiles_log jobId outcome _ s1 (t0 + 1) hwf1,
        canonicalLog_decomp outcome f m hf l₁ hok l₂]
    · simp [worker, h1, hr, wThrownMsg]
    · intro g hg
      obtain ⟨hg1, hg2⟩ := hglem g hg
      have he : wStore (worker s jobId (l₁ ++ f :: l₂) outcome bundle t0).2.2 = s2 := by
        simp [worker, h1, hr, wStore]
      rw [he]
      have h2 := huntouched g hg1 hg2
      rw [hr] at h2
      simp only [pfStore] at h2
      rw [h2]
      obtain ⟨_, _, _, hfiles1, _, _⟩ := updateJobStatus_spec _ _ _ _ _ _ h1
      rw [hfiles1]

/-- Witness for `c8_sequential`: job `[1, 2, 3]` where file 2 fails;
the log runs file 1 to completion, aggregates once, fails file 2, and
file 3 is never touched: its record stays as the Submission Gate wrote
it. -/
theorem c8_sequential_witness :
    ((worker (createJob emptyStore "j1" [1, 2, 3] 0) "j1" [1, 2, 3]
        (fun x => if x = 2 then .error "boom" else .ok "u") "b" 1).2.1 =
      Ev.jobStatus "processing" ::
        ([1].flatMap (fun x =>
          [Ev.fileStatus x "processing", Ev.fileStatus x "completed", Ev.progress]) ++
          [Ev.fileStatus 2 "processing", Ev.fileStatus 2 "failed"])) ∧
    (wThrownMsg (worker (createJob emptyStore "j1" [1, 2, 3] 0) "j1" [1, 2, 3]
        (fun x => if x = 2 then .error "boom" else .ok "u") "b" 1).2.2 = some "boom") ∧
    ((wStore (worker (createJob emptyStore "j1" [1, 2, 3] 0) "j1" [1, 2, 3]
        (fun x => if x = 2 then .error "boom" else .ok "u") "b" 1).2.2).files ("j1", 3) =
      (createJob emptyStore "j1" [1, 2, 3] 0).files ("j1", 3)) := by
  obtain ⟨ha, hb, hc⟩ := c8_sequential (createJob emptyStore "j1" [1, 2, 3] 0) "j1"
    (fun x => if x = 2 then .error "boom" else .ok "u") "b" 1 [1] [3] 2 "boom"
    (by decide) (by decide) rfl (by decide)
  exact ⟨ha, hb, hc 3 (by decide)⟩

/-! ### Lifecycle invariants -/

/-- Core-field preservation transports the pre-completion invariant. -/
theorem preCompletion_core {s s' : Store}
    (hcore : ∀ k, (s'.jobs k).map jobCore = (s.jobs k).map jobCore)
    (h : preCompletion s) : preCompletion s' := by
  intro k rec e hrec
  have hk := hcore k
  rw [hrec] at hk
  rcases hs : s.jobs k with _ | ⟨rec0, e0⟩ <;> rw [hs] at hk
  · simp at hk
  · have hk2 : jobCore (rec, e) = jobCore (rec0, e0) := Option.some.inj hk
    have hst : rec.status = rec0.status := congrArg (fun q => q.1) hk2
    have hca : rec.completed_at = rec0.completed_at := congrArg (fun q => q.2.2.1) hk2
    obtain ⟨h1, h2⟩ := h k rec0 e0 hs
    exact ⟨by rw [hst]; exact h1, by rw [hca]; exact h2⟩

/-- A pre-completion store satisfies the `completed_at` iff invariant
(both sides of the iff are false). -/
theorem preCompletion_completedAtInv {s : Store} (h : preCompletion s) :
    completedAtInv s := by
  intro k rec e hrec
  obtain ⟨h1, h2⟩ := h k rec e hrec
  constructor
  · intro hne; exact absurd h2 hne
  · intro hc; exact absurd hc h1

/-- `updateJobStatus(_, 'processing')` preserves the pre-completion
invariant. -/
theorem preCompletion_processing {s s' : Store} {jobId : String} {now : Nat}
    (h : updateJobStatus s jobId "processing" none now = some s')
    (hp : preCompletion s) : preCompletion s' := by
  obtain ⟨rec, e, hj, _, hother, hjid⟩ := updateJobStatus_spec _ _ _ _ _ _ h
  intro k rec' e' hrec'
  by_cases hk : k = jobId
  · subst hk
    rw [hjid, if_neg (by decide : ¬("processing" = "completed"))] at hrec'
    have hrec2 : ({ rec with status := "processing", updated_at := now } : JobRec) = rec' :=
      congrArg Prod.fst (Option.some.inj hrec')
    obtain ⟨_, h2⟩ := hp k rec e hj
    constructor
    · rw [← hrec2]
      show ("processing" : String) ≠ "completed"
      decide
    · rw [← hrec2]
      show rec.completed_at = none
      exact h2
  · rw [hother k hk] at hrec'
    exact hp k rec' e' hrec'

/-- `updateJobStatus(_, 'completed', url)` on a pre-completion store
establishes the `completed_at` iff invariant: the updated record gets
both the status and the timestamp, every other record keeps neither. -/
theorem completedAtInv_completed {s s' : Store} {jobId : String} {u : Option String}
    {now : Nat} (h : updateJobStatus s jobId "completed" u now = some s')
    (hp : preCompletion s) : completedAtInv s' := by
  obtain ⟨rec, e, hj, _, hother, hjid⟩ := updateJobStatus_spec _ _ _ _ _ _ h
  intro k rec' e' hrec'
  by_cases hk : k = jobId
  · subst hk
    rw [hjid, if_pos rfl] at hrec'
    have hrec2 : ({ rec with
        status := "completed"
        updated_at := now
        completed_at := some now
        bundle_url := u } : JobRec) = rec' :=
      congrArg Prod.fst (Option.some.inj hrec')
    constructor
    · intro _
      rw [← hrec2]
    · intro _
      rw [← hrec2]
      show (some now : Option Nat) ≠ none
      simp
  · rw [hother k hk] at hrec'
    exact preCompletion_completedAtInv hp k rec' e' hrec'

/-- Along one worker invocation from a pre-completion store, every
intermediate store state satisfies the `completed_at` iff invariant,
and when the invocation does not return normally the store it leaves
behind is still pre-completion. -/
theorem worker_completedAtInv (s0 : Store) (jobId : String) (fids : List Nat)
    (outcome : Nat → Except String String) (bundle : String) (t0 : Nat)
    (hp : preCompletion s0) :
    (∀ st ∈ (worker s0 jobId fids outcome bundle t0).1, completedAtInv st) ∧
    (wIsOk (worker s0 jobId fids outcome bundle t0).2.2 = false →
      preCompletion (wStore (worker s0 jobId fids outcome bundle t0).2.2)) := by
  cases h1 : updateJobStatus s0 jobId "processing" none t0 with
  | none =>
    constructor
    · intro st hst
      simp [worker, h1] at hst
    · intro _
      have he : wStore (worker s0 jobId fids outcome bundle t0).2.2 = s0 := by
        simp [worker, h1, wStore]
      rw [he]
      exact hp
  | some s1 =>
    have hp1 : preCompletion s1 := preCompletion_processing h1 hp
    obtain ⟨pftr, pfres⟩ := processFiles_core jobId outcome fids s1 (t0 + 1)
    have htrace : ∀ st ∈ (processFiles jobId outcome fids s1 (t0 + 1)).1,
        preCompletion st := fun st hst => preCompletion_core (pftr st hst) hp1
    have hres : preCompletion
        (pfStore (processFiles jobId outcome fids s1 (t0 + 1)).2.2) :=
      preCompletion_core pfres hp1
    cases hr : (processFiles jobId outcome fids s1 (t0 + 1)).2.2 with
    | thrown msg s2 =>
      constructor
      · intro st hst
        have he : (worker s0 jobId fids outcome bundle t0).1 =
            s1 :: (processFiles jobId outcome fids s1 (t0 + 1)).1 := by
          simp [worker, h1, hr]
        rw [he] at hst
        rcases List.mem_cons.mp hst with rfl | hm
        · exact preCompletion_completedAtInv hp1
        · exact preCompletion_completedAtInv (htrace st hm)
      · intro _
        have he : wStore (worker s0 jobId fids outcome bundle t0).2.2 = s2 := by
          simp [worker, h1, hr, wStore]
        rw [he]
        rw [hr] at hres
        exact hres
    | crash s2 =>
      constructor
      · intro st hst
        have he : (worker s0 jobId fids outcome bundle t0).1 =
            s1 :: (processFiles jobId outcome fids s1 (t0 + 1)).1 := by
          simp [worker, h1, hr]
        rw [he] at hst
        rcases List.mem_cons.mp hst with rfl | hm
        · exact preCompletion_completedAtInv hp1
        · exact preCompletion_completedAtInv (htrace st hm)
      · intro _
        have he : wStore (worker s0 jobId fids outcome bundle t0).2.2 = s2 := by
          simp [worker, h1, hr, wStore]
        rw [he]
        rw [hr] at hres
        exact hres
    | ok s2 t =>
      have hres2 : preCompletion s2 := by rw [hr] at hres; exact hres
      cases h2 : updateJobStatus s2 jobId "completed" (some bundle) t with
      | none =>
        constructor
        · intro st hst
          have he : (worker s0 jobId fids outcome bundle t0).1 =
              s1 :: (processFiles jobId outcome fids s1 (t0 + 1)).1 := by
            simp [worker, h1, hr, h2]
          rw [he] at hst
          rcases List.mem_cons.mp hst with rfl | hm
          · exact preCompletion_completedAtInv hp1
          · exact preCompletion_completedAtInv (htrace st hm)
        · intro _
          have he : wStore (worker s0 jobId fids outcome bundle t0).2.2 = s2 := by
            simp [worker, h1, hr, h2, wStore]
          rw [he]
          exact hres2
      | some s3 =>
        constructor
        · intro st hst
          have he : (worker s0 jobId fids outcome bundle t0).1 =
              s1 :: (processFiles jobId outcome fids s1 (t0 + 1)).1 ++ [s3] := by
            simp [worker, h1, hr, h2]
          rw [he] at hst
          rcases List.mem_cons.mp hst with rfl | hm
          · exact preCompletion_completedAtInv hp1
          · rcases List.mem_append.mp hm with hm' | hm'
            · exact preCompletion_completedAtInv (htrace st hm')
            · have : st = s3 := by simpa using hm'
              subst this
              exact completedAtInv_completed h2 hres2
        · intro hok
          have he : wIsOk (worker s0 jobId fids outcome bundle t0).2.2 = true := by
            simp [worker, h1, hr, h2, wIsOk]
          rw [he] at hok
          exact absurd hok (by simp)

/-- Every store state produced by the retry loop from a pre-completion
store satisfies the `completed_at` iff invariant. -/
theorem runsTrace_completedAtInv (jobId : String) (fids : List Nat) (bundle : String) :
    ∀ outcomes (s : Store) (t : Nat), preCompletion s →
      ∀ st ∈ runsTrace jobId fids bundle outcomes s t, completedAtInv st := by
  intro outcomes
  induction outcomes with
  | nil =>
    intro s t _ st hst
    simp [runsTrace] at hst
  | cons o rest ih =>
    intro s t hp st hst
    obtain ⟨htr, hpre⟩ := worker_completedAtInv s jobId fids o bundle t hp
    cases hr : (worker s jobId fids o bundle t).2.2 with
    | ok s2 =>
      have he : runsTrace jobId fids bundle (o :: rest) s t =
          (worker s jobId fids o bundle t).1 := by
        simp [runsTrace, hr]
      rw [he] at hst
      exact htr st hst
    | thrown m s2 =>
      have he : runsTrace jobId fids bundle (o :: rest) s t =
          (worker s jobId fids o bundle t).1 ++
            runsTrace jobId fids bundle rest s2 (t + 1000) := by
        simp [runsTrace, hr]
      rw [he] at hst
      rcases List.mem_append.mp hst with hm | hm
      · exact htr st hm
      · have hp2 : preCompletion s2 := by
          have hh := hpre (by rw [hr]; rfl)
          rw [hr] at hh
          exact hh
        exact ih s2 (t + 1000) hp2 st hm
    | crash s2 =>
      have he : runsTrace jobId fids bundle (o :: rest) s t =
          (worker s jobId fids o bundle t).1 ++
            runsTrace jobId fids bundle rest s2 (t + 1000) := by
        simp [runsTrace, hr]
      rw [he] at hst
      rcases List.mem_append.mp hst with hm | hm
      · exact htr st hm
      · have hp2 : preCompletion s2 := by
          have hh := hpre (by rw [hr]; rfl)
          rw [hr] at hh
          exact hh
        exact ih s2 (t + 1000) hp2 st hm

/-- The store written by the Submission Gate is pre-completion. -/
theorem preCompletion_createJob (jobId : String) (fids : List Nat) (t0 : Nat) :
    preCompletion (createJob emptyStore jobId fids t0) := by
  intro k rec e hrec
  by_cases hk : k = jobId
  · subst hk
    simp only [createJob, if_pos rfl] at hrec
    have hrec2 : ({ job_id := k
                    status := "queued"
                    file_ids := fids
                    created_at := t0
                    updated_at := t0
                    completed_at := none
                    progress := { completed := 0, total := fids.length, percentage := 0 }
                    bundle_url := none
                    error := none } : JobRec) = rec :=
      congrArg Prod.fst (Option.some.inj hrec)
    constructor
    · rw [← hrec2]
      show ("queued" : String) ≠ "completed"
      decide
    · rw [← hrec2]
  · simp [createJob, hk, emptyStore] at hrec

/-- C4: at every point of a job's lifecycle (creation by the
Submission Gate followed by the worker attempts), every stored job
record has `completed_at` set if and only if its status is
`completed`. -/
theorem c4_completedAt_iff (jobId : String) (fids : List Nat)
    (outcomes : List (Nat → Except String String)) (bundle : String) (t0 i : Nat)
    (k : String) (rec : JobRec) (e : Nat)
    (h : lifecycleJobAt jobId fids outcomes bundle t0 i k = some (rec, e)) :
    rec.completed_at ≠ none ↔ rec.status = "completed" := by
  rcases hgi : (jobLifecycle jobId fids outcomes bundle t0).get? i with _ | st
  · rw [lifecycleJobAt, hgi] at h
    exact absurd h (by simp)
  · have hmem : st ∈ jobLifecycle jobId fids outcomes bundle t0 := List.get?_mem hgi
    have hrec : st.jobs k = some (rec, e) := by
      rw [lifecycleJobAt, hgi] at h
      exact h
    have hp0 := preCompletion_createJob jobId fids t0
    simp only [jobLifecycle, List.mem_cons] at hmem
    rcases hmem with rfl | hm
    · exact preCompletion_completedAtInv hp0 k rec e hrec
    · exact runsTrace_completedAtInv jobId fids bundle outcomes _ _ hp0 st hm k rec e hrec

/-- Witness for `c4_completedAt_iff`: the final state of a one-file
successful lifecycle, whose job record is completed with
`completed_at` set. -/
theorem c4_completedAt_iff_witness :
    ({ job_id := "j1", status := "completed", file_ids := [5], created_at := 0,
       updated_at := 5, completed_at := some 5,
       progress := { completed := 1, total := 1, percentage := 100 },
       bundle_url := some "b", error := none } : JobRec).completed_at ≠ none ↔
      ({ job_id := "j1", status := "completed", file_ids := [5], created_at := 0,
         updated_at := 5, completed_at := some 5,
         progress := { completed := 1, total := 1, percentage := 100 },
         bundle_url := some "b", error := none } : JobRec).status = "completed" :=
  c4_completedAt_iff "j1" [5] [okOracle] "b" 0 5 "j1"
    { job_id := "j1", status := "completed", file_ids := [5], created_at := 0,
      updated_at := 5, completed_at := some 5,
      progress := { completed := 1, total := 1, percentage := 100 },
      bundle_url := some "b", error := none } 86405 (by decide)

/-- C5, counterexample: the claim that a job whose tasks are all
terminal with at least one `failed` transitions to `failed` with its
`error` populated is false on the code.  After the single task has
failed on every attempt (so all tasks are terminal and one is failed),
the job record still has status `processing` and no error: no code
path ever sets a job's status to `failed` or its `error` field. -/
theorem c5_counterexample :
    ((c5FinalStore.jobs "j1").map (fun p => (p.1.status, p.1.error)) =
      some ("processing", none)) ∧
    (((c5FinalStore.jobs "j1").map (fun p => p.1.status)) ≠ some "failed") ∧
    ((c5FinalStore.files ("j1", 70000)).map (fun p => p.1.status) = some "failed") := by
  refine ⟨rfl, by decide, rfl⟩

/-- C5, amended: when a worker invocation ends with a rethrown task
failure, the job record it leaves behind still has status
`processing`, and its `error` field is exactly what it was before the
invocation (no operation of the worker ever writes a job-level
`error`); the failure is visible only in the file record and, at the
queue level, in the dead-letter handler. -/
theorem c5_amended (s : Store) (jobId : String) (fids : List Nat)
    (outcome : Nat → Except String String) (bundle : String) (t0 : Nat) (msg : String)
    (rec : JobRec) (e : Nat)
    (hthrown : wThrownMsg (worker s jobId fids outcome bundle t0).2.2 = some msg)
    (hjob : s.jobs jobId = some (rec, e)) :
    ((wStore (worker s jobId fids outcome bundle t0).2.2).jobs jobId).map
      (fun p => (p.1.status, p.1.error)) = some ("processing", rec.error) := by
  cases h1 : updateJobStatus s jobId "processing" none t0 with
  | none => simp [worker, h1, wThrownMsg] at hthrown
  | some s1 =>
    obtain ⟨rec1, e1, hj1, _, _, hjid1⟩ := updateJobStatus_spec _ _ _ _ _ _ h1
    rw [hjob] at hj1
    have hrec1 : rec = rec1 := congrArg Prod.fst (Option.some.inj hj1)
    subst hrec1
    rw [if_neg (by decide : ¬("processing" = "completed"))] at hjid1
    obtain ⟨_, pfres⟩ := processFiles_core jobId outcome fids s1 (t0 + 1)
    cases hr : (processFiles jobId outcome fids s1 (t0 + 1)).2.2 with
    | ok s2 t =>
      cases h2 : updateJobStatus s2 jobId "completed" (some bundle) t with
      | none => simp [worker, h1, hr, h2, wThrownMsg] at hthrown
      | some s3 => simp [worker, h1, hr, h2, wThrownMsg] at hthrown
    | crash s2 => simp [worker, h1, hr, wThrownMsg] at hthrown
    | thrown m s2 =>
      have hw : wStore (worker s jobId fids outcome bundle t0).2.2 = s2 := by
        simp [worker, h1, hr, wStore]
      rw [hw]
      have hcore := pfres jobId
      rw [hr] at hcore
      simp only [pfStore] at hcore
      rw [hjid1] at hcore
      rcases hs2 : s2.jobs jobId with _ | ⟨rec2, e2⟩
      · rw [hs2] at hcore; simp at hcore
      · rw [hs2] at hcore
        have hk2 : jobCore (rec2, e2) =
            jobCore ({ rec with status := "processing", updated_at := t0 },
              t0 + 86400) := Option.some.inj hcore
        have hst : rec2.status = "processing" := congrArg (fun q => q.1) hk2
        have herr : rec2.error = rec.error := congrArg (fun q => q.2.1) hk2
        simp [hst, herr]

/-- Witness for `c5_amended`: a one-file job whose download fails; the
worker rethrows and the job record is left `processing` with no
error. -/
theorem c5_amended_witness :
    ((wStore (worker (createJob emptyStore "j1" [70000] 0) "j1" [70000] failOracle
        "b" 1).2.2).jobs "j1").map (fun p => (p.1.status, p.1.error)) =
      some ("processing", none) :=
  c5_amended (createJob emptyStore "j1" [70000] 0) "j1" [70000] failOracle "b" 1
    "network error"
    { job_id := "j1", status := "queued", file_ids := [70000], created_at := 0,
      updated_at := 0, completed_at := none,
      progress := { completed := 0, total := 1, percentage := 0 },
      bundle_url := none, error := none } 86400 (by decide) rfl

end Downloads
